import Mathlib

/-!
# Debounce (packages/arduino/debounce.h, debounce.cpp)

Shallow embedding of the `Debounce<int>` template instantiation and a
verification of its polling contract.

Modelling decisions:

* `TState = int` (the only explicit instantiation).  No arithmetic is ever
  performed on signal values, only `!=`, so they are embedded as `Int`.
* `unsigned long` is a 32-bit unsigned integer.  Times are `Nat` and the one
  subtraction in `poll` is reduced modulo `2 ^ 32` explicitly (`usub`).
* `millis()` is the external clock.  Every operation that reads it receives
  the number of milliseconds since boot as a parameter `now`; the value the
  code sees is `millis now`, the 32-bit truncation.
* `initialState` is a reference member (`const TState&`); the object it refers
  to is taken to keep the value it had at construction, so the member is
  embedded as that value.  It is only read by the test that selects between the
  two (identical) branches of `poll`.
* The callback is a plain function pointer and may have side effects.  It is
  embedded as a state-passing function over an arbitrary type `W` of
  callee-side state.  Each operation also reports the list of callback
  invocations it performed (`Call`), which is what "invokes the callback"
  refers to in the theorems.
-/

namespace Buzz

/-- Modulus of `unsigned long` arithmetic. -/
def ULONG_MOD : Nat := 2 ^ 32

/-- Value returned by `millis()` when `now` milliseconds have passed since boot. -/
def millis (now : Nat) : Nat := now % ULONG_MOD

/-- Subtraction `a - b` on `unsigned long`. -/
def usub (a b : Nat) : Nat := (a + (ULONG_MOD - b % ULONG_MOD)) % ULONG_MOD

/-- One invocation of the callback: the argument passed and the value returned. -/
structure Call where
  arg : Int
  result : Int
  deriving DecidableEq, Repr

/-- Data members of `class Debounce<int>` (`DELAY` is the constant below). -/
structure Debounce (W : Type) where
  state : Int
  initialState : Int
  lastDebounceTime : Nat
  callback : Int → W → Int × W
  prevCallbackResult : Int

/-- Member constant `const unsigned long DELAY = 50;`. -/
def Debounce.DELAY : Nat := 50

/-- Constructor `Debounce::Debounce(f, initialCallbackValue, initialState)`, run
when the clock shows `now`.  (Named `ctor` because `Debounce.Debounce` would
shadow the structure inside its own namespace.) -/
def Debounce.ctor {W : Type} (f : Int → W → Int × W) (initialCallbackValue : Int)
    (initialState : Int) (now : Nat) : Debounce W :=
  { state := initialState
    initialState := initialState
    lastDebounceTime := millis now
    callback := f
    prevCallbackResult := initialCallbackValue }

/-- Everything observable after one call of `poll`. -/
structure Outcome (W : Type) where
  /-- The object after the call. -/
  self : Debounce W
  /-- The callee-side state after the call. -/
  world : W
  /-- The callback invocations performed by the call, in order. -/
  calls : List Call
  /-- The returned value. -/
  ret : Int

/-- Member function `TState poll(TState value)`, run when the clock shows `now`
and the callee-side state is `w`. -/
def Debounce.poll {W : Type} (d : Debounce W) (value : Int) (now : Nat) (w : W) : Outcome W :=
  let currentTime := millis now
  if value ≠ d.state ∧ usub currentTime d.lastDebounceTime > Debounce.DELAY then
    -- Change detected
    let d1 : Debounce W := { d with lastDebounceTime := currentTime }
    let d2 : Debounce W := { d1 with state := value }
    if d2.state ≠ d2.initialState then
      -- pressed
      let r := d2.callback d2.state w
      let d3 : Debounce W := { d2 with prevCallbackResult := r.1 }
      { self := d3, world := r.2, calls := [⟨d2.state, r.1⟩], ret := d3.prevCallbackResult }
    else
      -- released
      let r := d2.callback d2.state w
      let d3 : Debounce W := { d2 with prevCallbackResult := r.1 }
      { self := d3, world := r.2, calls := [⟨d2.state, r.1⟩], ret := d3.prevCallbackResult }
  else
    { self := d, world := w, calls := [], ret := d.prevCallbackResult }

/-- Time that `poll` computes as elapsed since the last accepted change. -/
def Debounce.elapsed {W : Type} (d : Debounce W) (now : Nat) : Nat :=
  usub (millis now) d.lastDebounceTime

/-- One timestamped call `poll(value)`: the sampled value and the clock at the call. -/
structure Sample where
  value : Int
  now : Nat
  deriving DecidableEq, Repr

/-- Everything observable after a sequence of `poll` calls. -/
structure Trace (W : Type) where
  /-- The object after the last call. -/
  self : Debounce W
  /-- The callee-side state after the last call. -/
  world : W
  /-- All callback invocations performed, oldest first. -/
  calls : List Call
  /-- The values returned by the calls, in call order. -/
  rets : List Int

/-- A caller that performs the timestamped `poll` calls `ps` one after another. -/
def Debounce.run {W : Type} (d : Debounce W) (w : W) : List Sample → Trace W
  | [] => { self := d, world := w, calls := [], rets := [] }
  | p :: ps =>
    let o := d.poll p.value p.now w
    let t := Debounce.run o.self o.world ps
    { self := t.self, world := t.world, calls := o.calls ++ t.calls, rets := o.ret :: t.rets }

/-- Return value of the most recent invocation recorded in `calls`, or `c` when
nothing has been invoked. -/
def latestResult (c : Int) (calls : List Call) : Int :=
  match calls.getLast? with
  | some k => k.result
  | none => c

/-- The held-steady requirement of the header comment ("invokes a callback when
a value remains in a new state longer than DELAY"), as a check on the samples
seen so far: among the polls `earlier` (oldest first) that precede the poll `p`
there is one, made at least `DELAY` before `p`, such that it and every poll
after it sampled the value of `p`. -/
def heldSteadyBefore (earlier : List Sample) (p : Sample) : Bool :=
  (List.range earlier.length).any fun j =>
    (earlier.drop j).all (fun q => decide (q.value = p.value)) &&
      (earlier.drop j).head?.any (fun q => decide (q.now + Debounce.DELAY ≤ p.now))

/-- Modelled from the spec: the macro `LOW` of `Arduino.h`, which is not part of
the sources; the spec calls it the "low"/inactive signal level, the value 0. -/
def LOW : Int := 0

/-- Constructor call `Debounce(f, initialCallbackValue)`: the declaration in
`debounce.h` supplies the default `initialState = LOW`. -/
def Debounce.ctorDefaultState {W : Type} (f : Int → W → Int × W) (initialCallbackValue : Int)
    (now : Nat) : Debounce W :=
  Debounce.ctor f initialCallbackValue LOW now

/-- Constructor call `Debounce(f)`: the declaration in `debounce.h` supplies the
defaults `initialCallbackValue = 0` and `initialState = LOW`. -/
def Debounce.ctorDefaults {W : Type} (f : Int → W → Int × W) (now : Nat) : Debounce W :=
  Debounce.ctor f 0 LOW now

/-- The acceptance logic as the spec words it (section 4.1, steps 1 to 4), with a
single path for both transition directions: `initialState` is never consulted. -/
def Debounce.pollUniform {W : Type} (d : Debounce W) (value : Int) (now : Nat) (w : W) :
    Outcome W :=
  if value = d.state then
    { self := d, world := w, calls := [], ret := d.prevCallbackResult }
  else if usub (millis now) d.lastDebounceTime > Debounce.DELAY then
    { self := { d with state := value, lastDebounceTime := millis now,
                       prevCallbackResult := (d.callback value w).1 }
      world := (d.callback value w).2
      calls := [⟨value, (d.callback value w).1⟩]
      ret := (d.callback value w).1 }
  else
    { self := d, world := w, calls := [], ret := d.prevCallbackResult }

/-- Value returned by `millis()` on a target whose `unsigned long` has `bits` bits. -/
def millisW (bits now : Nat) : Nat := now % 2 ^ bits

/-- Subtraction `a - b` on an `unsigned long` of `bits` bits; `usub` is the case
`bits = 32`. -/
def usubW (bits a b : Nat) : Nat := (a + (2 ^ bits - b % 2 ^ bits)) % 2 ^ bits

/-- Argument of the most recent invocation recorded in `calls`, or `s` when
nothing has been invoked. -/
def latestArg (s : Int) (calls : List Call) : Int :=
  match calls.getLast? with
  | some k => k.arg
  | none => s

/-- Clock values of the polls of `ps` that invoke the callback, oldest first:
every invocation made by a poll is stamped with the clock of that poll. -/
def Debounce.callTimes {W : Type} (d : Debounce W) (w : W) : List Sample → List Nat
  | [] => []
  | p :: ps =>
    let o := d.poll p.value p.now w
    o.calls.map (fun _ => p.now) ++ Debounce.callTimes o.self o.world ps

/-- A callback with a side effect: it counts its invocations in the callee-side
state and its result depends on both the argument and that count. -/
def countingCallback (v : Int) (n : Nat) : Int × Nat := (10 * v + n, n + 1)

/-- A debouncer as left by an accepted change at time 100 (state 1, rest state 0). -/
def heldAt100 : Debounce Nat :=
  { state := 1
    initialState := 0
    lastDebounceTime := 100
    callback := countingCallback
    prevCallbackResult := 10 }

/-! ## Arithmetic of the clock -/

theorem usub_millis_of_le (last now : Nat) (h1 : last ≤ now) (h2 : now < ULONG_MOD) :
    usub (millis now) last = now - last := by
  unfold usub millis ULONG_MOD at *
  omega

theorem usub_millis_add (t e : Nat) (he : e < ULONG_MOD) :
    usub (millis (t + e)) (millis t) = e := by
  unfold usub millis ULONG_MOD at *
  omega

theorem usubW_int (bits a b : Nat) :
    ((usubW bits a b : Nat) : Int) = ((a : Int) - (b : Int)) % ((2 : Int) ^ bits) := by
  unfold usubW
  have hpos : 0 < 2 ^ bits := Nat.pow_pos (by decide)
  have hlt : b % 2 ^ bits < 2 ^ bits := Nat.mod_lt _ hpos
  push_cast [Nat.cast_sub (Nat.le_of_lt hlt)]
  have key : (a : Int) + ((2 : Int) ^ bits - (b : Int) % 2 ^ bits)
      = ((a : Int) - b) + (2 : Int) ^ bits * (1 + (b : Int) / 2 ^ bits) := by
    have := Int.emod_add_ediv (b : Int) ((2 : Int) ^ bits)
    linarith
  rw [key, Int.add_mul_emod_self_left]

theorem usubW_millisW_add (bits t e : Nat) (he : e < 2 ^ bits) :
    usubW bits (millisW bits (t + e)) (millisW bits t) = e := by
  have h := usubW_int bits (millisW bits (t + e)) (millisW bits t)
  unfold millisW at *
  have h2 : (((t + e) % 2 ^ bits : Nat) : Int) - ((t % 2 ^ bits : Nat) : Int)
      = (e : Int) + (2 : Int) ^ bits *
          (((t + e : Nat) : Int) / 2 ^ bits * (-1) + (t : Int) / 2 ^ bits) := by
    have a1 := Int.emod_add_ediv ((t + e : Nat) : Int) ((2 : Int) ^ bits)
    have a2 := Int.emod_add_ediv (t : Int) ((2 : Int) ^ bits)
    push_cast at *
    linarith
  rw [h2, Int.add_mul_emod_self_left] at h
  have h3 : (e : Int) % (2 : Int) ^ bits = e := by
    apply Int.emod_eq_of_lt (Int.natCast_nonneg _)
    exact_mod_cast he
  rw [h3] at h
  exact_mod_cast h

theorem elapsed_int {W : Type} (d : Debounce W) (now : Nat) :
    ((d.elapsed now : Nat) : Int)
      = ((now : Int) - (d.lastDebounceTime : Int)) % ((2 : Int) ^ 32) := by
  unfold Debounce.elapsed usub millis ULONG_MOD
  omega

/-! ## Single-call lemmas -/

theorem Debounce.poll_of_accept {W : Type} (d : Debounce W) (v : Int) (now : Nat) (w : W)
    (hv : v ≠ d.state) (ht : Debounce.DELAY < usub (millis now) d.lastDebounceTime) :
    d.poll v now w =
      { self := { d with lastDebounceTime := millis now, state := v,
                         prevCallbackResult := (d.callback v w).1 }
        world := (d.callback v w).2
        calls := [⟨v, (d.callback v w).1⟩]
        ret := (d.callback v w).1 } := by
  unfold Debounce.poll
  simp only [gt_iff_lt, hv, ht, ne_eq, not_false_eq_true, and_self, if_true]
  split <;> rfl

theorem Debounce.poll_of_reject {W : Type} (d : Debounce W) (v : Int) (now : Nat) (w : W)
    (h : ¬ (v ≠ d.state ∧ Debounce.DELAY < usub (millis now) d.lastDebounceTime)) :
    d.poll v now w = { self := d, world := w, calls := [], ret := d.prevCallbackResult } := by
  unfold Debounce.poll
  simp only [gt_iff_lt]
  rw [if_neg h]

theorem Debounce.poll_of_eq {W : Type} (d : Debounce W) (now : Nat) (w : W) :
    d.poll d.state now w = { self := d, world := w, calls := [], ret := d.prevCallbackResult } :=
  d.poll_of_reject d.state now w (fun h => h.1 rfl)

theorem Debounce.poll_cases {W : Type} (d : Debounce W) (v : Int) (now : Nat) (w : W) :
    d.poll v now w =
        { self := { d with lastDebounceTime := millis now, state := v,
                           prevCallbackResult := (d.callback v w).1 }
          world := (d.callback v w).2
          calls := [⟨v, (d.callback v w).1⟩]
          ret := (d.callback v w).1 } ∨
      d.poll v now w = { self := d, world := w, calls := [], ret := d.prevCallbackResult } := by
  by_cases h : v ≠ d.state ∧ Debounce.DELAY < usub (millis now) d.lastDebounceTime
  · exact Or.inl (d.poll_of_accept v now w h.1 h.2)
  · exact Or.inr (d.poll_of_reject v now w h)

/-! ## Sequences of calls -/

theorem latestResult_append (c : Int) (xs ys : List Call) :
    latestResult c (xs ++ ys) = latestResult (latestResult c xs) ys := by
  unfold latestResult
  rw [List.getLast?_append]
  cases ys.getLast? <;> cases xs.getLast? <;> rfl

theorem Debounce.poll_ret {W : Type} (d : Debounce W) (v : Int) (now : Nat) (w : W) :
    (d.poll v now w).ret = (d.poll v now w).self.prevCallbackResult := by
  rcases d.poll_cases v now w with h | h <;> rw [h]

theorem Debounce.poll_cached {W : Type} (d : Debounce W) (v : Int) (now : Nat) (w : W) :
    (d.poll v now w).self.prevCallbackResult =
      latestResult d.prevCallbackResult (d.poll v now w).calls := by
  rcases d.poll_cases v now w with h | h <;> rw [h] <;> rfl

theorem Debounce.run_append {W : Type} (d : Debounce W) (w : W) (ps qs : List Sample) :
    d.run w (ps ++ qs) =
      { self := ((d.run w ps).self.run (d.run w ps).world qs).self
        world := ((d.run w ps).self.run (d.run w ps).world qs).world
        calls := (d.run w ps).calls ++ ((d.run w ps).self.run (d.run w ps).world qs).calls
        rets := (d.run w ps).rets ++ ((d.run w ps).self.run (d.run w ps).world qs).rets } := by
  induction ps generalizing d w with
  | nil => rfl
  | cons p ps ih =>
    rw [List.cons_append, Debounce.run, Debounce.run, ih]
    simp only [List.append_assoc, List.cons_append]

theorem Debounce.run_rets_get {W : Type} (d : Debounce W) (w : W) (ps : List Sample) (k : Nat)
    (hk : k < ps.length) :
    (d.run w ps).rets[k]? =
      some (latestResult d.prevCallbackResult (d.run w (ps.take (k + 1))).calls) := by
  induction ps generalizing d w k with
  | nil => exact absurd hk (Nat.not_lt_zero _)
  | cons p ps ih =>
    cases k with
    | zero =>
      simp only [Debounce.run, List.take_succ_cons, List.take_zero, List.append_nil,
        List.getElem?_cons_zero, d.poll_ret, d.poll_cached]
    | succ k =>
      have hk1 : k < ps.length := Nat.lt_of_succ_lt_succ hk
      simp only [Debounce.run, List.take_succ_cons, List.getElem?_cons_succ, ih _ _ k hk1,
        latestResult_append, d.poll_cached]

theorem Debounce.poll_of_calls_nil {W : Type} (d : Debounce W) (v : Int) (now : Nat) (w : W)
    (h : (d.poll v now w).calls = []) :
    d.poll v now w = { self := d, world := w, calls := [], ret := d.prevCallbackResult } := by
  rcases d.poll_cases v now w with h1 | h1
  · rw [h1] at h
    exact absurd h (List.cons_ne_nil _ _)
  · exact h1

theorem Debounce.poll_guard_of_calls_ne_nil {W : Type} (d : Debounce W) (v : Int) (now : Nat)
    (w : W) (h : (d.poll v now w).calls ≠ []) :
    v ≠ d.state ∧ Debounce.DELAY < usub (millis now) d.lastDebounceTime := by
  by_contra hg
  rw [d.poll_of_reject v now w hg] at h
  exact h rfl

theorem Debounce.run_of_calls_nil {W : Type} (d : Debounce W) (w : W) (ps : List Sample)
    (h : (d.run w ps).calls = []) : (d.run w ps).self = d ∧ (d.run w ps).world = w := by
  induction ps with
  | nil => exact ⟨rfl, rfl⟩
  | cons p ps ih =>
    simp only [Debounce.run, List.append_eq_nil] at h
    have hp := d.poll_of_calls_nil p.value p.now w h.1
    simp only [Debounce.run, hp] at h ⊢
    exact ih h.2

theorem Debounce.run_same_value {W : Type} (d : Debounce W) (w : W) (ps : List Sample)
    (h : ∀ p ∈ ps, p.value = d.state) :
    d.run w ps =
      { self := d, world := w, calls := [],
        rets := List.replicate ps.length d.prevCallbackResult } := by
  induction ps with
  | nil => rfl
  | cons p ps ih =>
    have hp : p.value = d.state := h p (List.mem_cons_self _ _)
    have ih1 := ih (fun q hq => h q (List.mem_cons_of_mem _ hq))
    simp only [Debounce.run, hp, d.poll_of_eq p.now w, ih1, List.nil_append,
      List.length_cons, List.replicate_succ]

theorem Debounce.poll_calls_ne_nil_iff {W : Type} (d : Debounce W) (v : Int) (now : Nat) (w : W) :
    (d.poll v now w).calls ≠ [] ↔
      (v ≠ d.state ∧ Debounce.DELAY < usub (millis now) d.lastDebounceTime) := by
  constructor
  · exact d.poll_guard_of_calls_ne_nil v now w
  · intro h
    rw [d.poll_of_accept v now w h.1 h.2]
    exact List.cons_ne_nil _ _

theorem Debounce.poll_self_of_calls_ne_nil {W : Type} (d : Debounce W) (v : Int) (now : Nat)
    (w : W) (h : (d.poll v now w).calls ≠ []) :
    (d.poll v now w).self.state = v ∧ (d.poll v now w).self.lastDebounceTime = millis now := by
  have hg := d.poll_guard_of_calls_ne_nil v now w h
  rw [d.poll_of_accept v now w hg.1 hg.2]
  exact ⟨rfl, rfl⟩

theorem Debounce.poll_callback {W : Type} (d : Debounce W) (v : Int) (now : Nat) (w : W) :
    (d.poll v now w).self.callback = d.callback ∧
      (d.poll v now w).self.initialState = d.initialState := by
  rcases d.poll_cases v now w with h | h <;> rw [h] <;> exact ⟨rfl, rfl⟩

/-- Behaviour of an object whose `lastDebounceTime` was taken at clock `ta`. -/
theorem Debounce.anchored {W : Type} (d : Debounce W) (ta : Nat) (w : W)
    (hd : d.lastDebounceTime = millis ta) (x : Int) (hx : x ≠ d.state) (qs : List Sample)
    (t : Nat) (hqs : (d.run w qs).calls = []) (h1 : ta ≤ t) (h2 : t - ta < ULONG_MOD) :
    (d.poll x (ta + 1) w).calls = [] ∧
    (((d.run w qs).self.poll x t (d.run w qs).world).calls ≠ [] ↔
      ta + Debounce.DELAY + 1 ≤ t) ∧
    (d.run w [⟨x, ta + 10⟩, ⟨x, ta + 60⟩]).calls = [⟨x, (d.callback x w).1⟩] ∧
    (d.run w [⟨x, ta + 10⟩, ⟨x, ta + 60⟩]).rets
      = [d.prevCallbackResult, (d.callback x w).1] := by
  have e1 : usub (millis (ta + 1)) d.lastDebounceTime = 1 := by
    rw [hd]; exact usub_millis_add ta 1 (by decide)
  have e10 : usub (millis (ta + 10)) d.lastDebounceTime = 10 := by
    rw [hd]; exact usub_millis_add ta 10 (by decide)
  have e60 : usub (millis (ta + 60)) d.lastDebounceTime = 60 := by
    rw [hd]; exact usub_millis_add ta 60 (by decide)
  have et : usub (millis t) d.lastDebounceTime = t - ta := by
    have h := usub_millis_add ta (t - ta) h2
    rw [Nat.add_sub_cancel' h1] at h
    rw [hd]; exact h
  have r1 : d.poll x (ta + 1) w
      = { self := d, world := w, calls := [], ret := d.prevCallbackResult } :=
    d.poll_of_reject x (ta + 1) w (fun h => by rw [e1] at h; exact absurd h.2 (by decide))
  have r10 : d.poll x (ta + 10) w
      = { self := d, world := w, calls := [], ret := d.prevCallbackResult } :=
    d.poll_of_reject x (ta + 10) w (fun h => by rw [e10] at h; exact absurd h.2 (by decide))
  have a60 := d.poll_of_accept x (ta + 60) w hx (by rw [e60]; decide)
  obtain ⟨hs, hw⟩ := d.run_of_calls_nil w qs hqs
  refine ⟨by rw [r1], ?_, ?_, ?_⟩
  · rw [hs, hw, d.poll_calls_ne_nil_iff x t w, et]
    unfold Debounce.DELAY
    constructor
    · intro h; have := h.2; omega
    · intro h; exact ⟨hx, by omega⟩
  · simp only [Debounce.run, r10, a60, List.nil_append, List.append_nil]
  · simp only [Debounce.run, r10, a60]

/-! ## Invariants of call sequences -/

theorem latestArg_append (s : Int) (xs ys : List Call) :
    latestArg s (xs ++ ys) = latestArg (latestArg s xs) ys := by
  unfold latestArg
  rw [List.getLast?_append]
  cases ys.getLast? <;> cases xs.getLast? <;> rfl

theorem Debounce.run_state_chain {W : Type} (d : Debounce W) (w : W) (ps : List Sample) :
    (d.run w ps).self.state = latestArg d.state (d.run w ps).calls ∧
      (d.run w ps).self.initialState = d.initialState ∧
      List.Chain (fun a b => a ≠ b) d.state ((d.run w ps).calls.map Call.arg) := by
  induction ps generalizing d w with
  | nil => exact ⟨rfl, rfl, List.Chain.nil⟩
  | cons p ps ih =>
    by_cases hg : p.value ≠ d.state ∧ Debounce.DELAY < usub (millis p.now) d.lastDebounceTime
    · have h1 := d.poll_of_accept p.value p.now w hg.1 hg.2
      have ih1 := ih (d.poll p.value p.now w).self (d.poll p.value p.now w).world
      simp only [Debounce.run, latestArg_append, List.map_append]
      rw [h1] at ih1 ⊢
      exact ⟨ih1.1, ih1.2.1, List.Chain.cons (Ne.symm hg.1) ih1.2.2⟩
    · have h1 := d.poll_of_reject p.value p.now w hg
      have ih1 := ih (d.poll p.value p.now w).self (d.poll p.value p.now w).world
      simp only [Debounce.run, latestArg_append, List.map_append]
      rw [h1] at ih1 ⊢
      exact ih1

theorem Debounce.callTimes_length {W : Type} (d : Debounce W) (w : W) (ps : List Sample) :
    (d.callTimes w ps).length = (d.run w ps).calls.length := by
  induction ps generalizing d w with
  | nil => rfl
  | cons p ps ih =>
    simp only [Debounce.callTimes, Debounce.run, List.length_append, List.length_map, ih]

theorem Debounce.callTimes_spaced {W : Type} (d : Debounce W) (w : W) (ps : List Sample)
    (last0 : Nat) (hd : d.lastDebounceTime = millis last0)
    (h0 : ∀ p ∈ ps, last0 ≤ p.now)
    (hs : List.Pairwise (fun a b => a ≤ b) (ps.map Sample.now))
    (hM : ∀ p ∈ ps, p.now < last0 + ULONG_MOD) :
    (∀ x ∈ d.callTimes w ps, last0 + Debounce.DELAY < x) ∧
      List.Pairwise (fun x y => x + Debounce.DELAY < y) (d.callTimes w ps) := by
  induction ps generalizing d w last0 with
  | nil => exact ⟨fun x hx => absurd hx (List.not_mem_nil _), List.Pairwise.nil⟩
  | cons p ps ih =>
    have hp0 : last0 ≤ p.now := h0 p (List.mem_cons_self _ _)
    have hpM : p.now < last0 + ULONG_MOD := hM p (List.mem_cons_self _ _)
    rw [List.map_cons, List.pairwise_cons] at hs
    have hel : usub (millis p.now) d.lastDebounceTime = p.now - last0 := by
      have h := usub_millis_add last0 (p.now - last0) (by omega)
      rw [Nat.add_sub_cancel' hp0] at h
      rw [hd]; exact h
    by_cases hg : p.value ≠ d.state ∧ Debounce.DELAY < usub (millis p.now) d.lastDebounceTime
    · have h1 := d.poll_of_accept p.value p.now w hg.1 hg.2
      have hgap : last0 + Debounce.DELAY < p.now := by
        have := hg.2
        rw [hel] at this
        omega
      have ih1 := ih (d.poll p.value p.now w).self (d.poll p.value p.now w).world p.now
        (by rw [h1])
        (fun q hq => hs.1 q.now (List.mem_map_of_mem _ hq))
        hs.2
        (fun q hq => by
          have := hM q (List.mem_cons_of_mem _ hq)
          omega)
      simp only [Debounce.callTimes]
      rw [h1] at ih1 ⊢
      simp only [List.map_cons, List.map_nil, List.singleton_append]
      refine ⟨?_, List.pairwise_cons.mpr ⟨fun x hx => ih1.1 x hx, ih1.2⟩⟩
      intro x hx
      rcases List.mem_cons.mp hx with hx1 | hx1
      · rw [hx1]; exact hgap
      · have := ih1.1 x hx1
        omega
    · have h1 := d.poll_of_reject p.value p.now w hg
      have ih1 := ih (d.poll p.value p.now w).self (d.poll p.value p.now w).world last0
        (by rw [h1]; exact hd)
        (fun q hq => h0 q (List.mem_cons_of_mem _ hq))
        hs.2
        (fun q hq => hM q (List.mem_cons_of_mem _ hq))
      simp only [Debounce.callTimes]
      rw [h1] at ih1 ⊢
      simpa using ih1

theorem spaced_window_count (xs : List Nat) (a L : Nat)
    (hp : List.Pairwise (fun x y => x + Debounce.DELAY < y) xs)
    (hin : ∀ x ∈ xs, a ≤ x ∧ x ≤ a + L) :
    xs.length ≤ L / (Debounce.DELAY + 1) + 1 := by
  induction xs generalizing a L with
  | nil => exact Nat.zero_le _
  | cons x xs ih =>
    cases xs with
    | nil => simp
    | cons y ys =>
      rw [List.pairwise_cons] at hp
      have hx := hin x (List.mem_cons_self _ _)
      have hy := hin y (List.mem_cons_of_mem _ (List.mem_cons_self _ _))
      have hxy := hp.1 y (List.mem_cons_self _ _)
      unfold Debounce.DELAY at *
      have hL : 51 ≤ L := by omega
      have ih1 := ih (a + 51) (L - 51) hp.2 (fun z hz => by
        have h1 := hp.1 z hz
        have h2 := hin z (List.mem_cons_of_mem _ hz)
        omega)
      simp only [List.length_cons] at ih1 ⊢
      omega

/-! ## Contract of a single `poll` -/

/-- C1 (acceptance).  If the sampled value differs from `state` and the elapsed
time that `poll` computes (`currentTime - lastDebounceTime` on `unsigned long`)
exceeds `DELAY = 50`, the call invokes the callback exactly once, with argument
`v`; afterwards `state = v`, `lastDebounceTime` is the clock reading, the cached
result is the callback's return value, and that value is returned.  The other
members are untouched. -/
theorem poll_accept {W : Type} (d : Debounce W) (v : Int) (now : Nat) (w : W)
    (hv : v ≠ d.state) (ht : d.elapsed now > Debounce.DELAY) :
    Debounce.DELAY = 50 ∧
    (d.poll v now w).calls = [⟨v, (d.callback v w).1⟩] ∧
    (d.poll v now w).world = (d.callback v w).2 ∧
    (d.poll v now w).self.state = v ∧
    (d.poll v now w).self.lastDebounceTime = millis now ∧
    (d.poll v now w).self.prevCallbackResult = (d.callback v w).1 ∧
    (d.poll v now w).ret = (d.callback v w).1 ∧
    (d.poll v now w).self.initialState = d.initialState ∧
    (d.poll v now w).self.callback = d.callback := by
  rw [d.poll_of_accept v now w hv ht]
  exact ⟨rfl, rfl, rfl, rfl, rfl, rfl, rfl, rfl, rfl⟩

theorem poll_accept_witness :
    (0 : Int) ≠ heldAt100.state ∧ heldAt100.elapsed 151 > Debounce.DELAY ∧
    (Debounce.DELAY = 50 ∧
    (heldAt100.poll 0 151 3).calls = [⟨0, (heldAt100.callback 0 3).1⟩] ∧
    (heldAt100.poll 0 151 3).world = (heldAt100.callback 0 3).2 ∧
    (heldAt100.poll 0 151 3).self.state = 0 ∧
    (heldAt100.poll 0 151 3).self.lastDebounceTime = millis 151 ∧
    (heldAt100.poll 0 151 3).self.prevCallbackResult = (heldAt100.callback 0 3).1 ∧
    (heldAt100.poll 0 151 3).ret = (heldAt100.callback 0 3).1 ∧
    (heldAt100.poll 0 151 3).self.initialState = heldAt100.initialState ∧
    (heldAt100.poll 0 151 3).self.callback = heldAt100.callback) :=
  ⟨by decide, by decide, poll_accept heldAt100 0 151 3 (by decide) (by decide)⟩

/-- C2 (suppression).  If the sampled value differs from `state` but the elapsed
time that `poll` computes is at most `DELAY` (the boundary `elapsed = 50`
included), the call invokes nothing, leaves the object and the callee-side state
exactly as they were, and returns the cached result. -/
theorem poll_suppress {W : Type} (d : Debounce W) (v : Int) (now : Nat) (w : W)
    (_hv : v ≠ d.state) (ht : d.elapsed now ≤ Debounce.DELAY) :
    (d.poll v now w).calls = [] ∧
    (d.poll v now w).self = d ∧
    (d.poll v now w).world = w ∧
    (d.poll v now w).ret = d.prevCallbackResult := by
  have h : ¬ (v ≠ d.state ∧ Debounce.DELAY < usub (millis now) d.lastDebounceTime) :=
    fun h => absurd ht (Nat.not_le.mpr h.2)
  rw [d.poll_of_reject v now w h]
  exact ⟨rfl, rfl, rfl, rfl⟩

theorem poll_suppress_witness :
    (0 : Int) ≠ heldAt100.state ∧ heldAt100.elapsed 150 ≤ Debounce.DELAY ∧
    ((heldAt100.poll 0 150 3).calls = [] ∧
    (heldAt100.poll 0 150 3).self = heldAt100 ∧
    (heldAt100.poll 0 150 3).world = 3 ∧
    (heldAt100.poll 0 150 3).ret = heldAt100.prevCallbackResult) :=
  ⟨by decide, by decide, poll_suppress heldAt100 0 150 3 (by decide) (by decide)⟩

/-- C3 (idempotence under no change).  A `poll` whose value equals `state`
invokes nothing, leaves the whole object and the callee-side state unchanged and
returns the cached result, whatever the clock shows; hence every call of a
sequence of such polls returns the same cached value and the sequence changes
nothing. -/
theorem poll_same_value_idempotent {W : Type} (d : Debounce W) (w : W) (ps : List Sample)
    (h : ∀ p ∈ ps, p.value = d.state) :
    (∀ now : Nat, d.poll d.state now w =
      { self := d, world := w, calls := [], ret := d.prevCallbackResult }) ∧
    d.run w ps =
      { self := d, world := w, calls := [],
        rets := List.replicate ps.length d.prevCallbackResult } := by
  exact ⟨fun now => d.poll_of_eq now w, d.run_same_value w ps h⟩

theorem poll_same_value_idempotent_witness :
    (∀ p ∈ [(⟨1, 5⟩ : Sample), ⟨1, 100000⟩, ⟨1, 2 ^ 32 + 7⟩], p.value = heldAt100.state) ∧
    ((∀ now : Nat, heldAt100.poll heldAt100.state now 3 =
      { self := heldAt100, world := 3, calls := [],
        ret := heldAt100.prevCallbackResult }) ∧
    heldAt100.run 3 [⟨1, 5⟩, ⟨1, 100000⟩, ⟨1, 2 ^ 32 + 7⟩] =
      { self := heldAt100, world := 3, calls := [],
        rets := List.replicate
          [(⟨1, 5⟩ : Sample), ⟨1, 100000⟩, ⟨1, 2 ^ 32 + 7⟩].length
          heldAt100.prevCallbackResult }) :=
  ⟨by decide, poll_same_value_idempotent heldAt100 3 _ (by decide)⟩

/-! ## Contract over call sequences -/

/-- C4 (callback result caching).  For a debouncer built by the constructor and
any finite sequence of timestamped polls, the value returned by the `k`-th poll
is the return value of the most recent callback invocation among the first
`k + 1` polls, or the constructor argument `initialCallbackValue` when none of
them invoked the callback. -/
theorem poll_returns_latest_callback_result {W : Type} (f : Int → W → Int × W)
    (initialCallbackValue initialState : Int) (t0 : Nat) (w : W) (ps : List Sample) (k : Nat)
    (hk : k < ps.length) :
    ((Debounce.ctor f initialCallbackValue initialState t0).run w ps).rets[k]? =
      some (latestResult initialCallbackValue
        ((Debounce.ctor f initialCallbackValue initialState t0).run w (ps.take (k + 1))).calls) :=
  Debounce.run_rets_get (Debounce.ctor f initialCallbackValue initialState t0) w ps k hk

theorem poll_returns_latest_callback_result_witness :
    2 < [(⟨1, 10⟩ : Sample), ⟨1, 60⟩, ⟨0, 70⟩, ⟨0, 200⟩].length ∧
    ((Debounce.ctor countingCallback 7 0 0).run 0
        [⟨1, 10⟩, ⟨1, 60⟩, ⟨0, 70⟩, ⟨0, 200⟩]).rets[2]? =
      some (latestResult 7
        ((Debounce.ctor countingCallback 7 0 0).run 0
          ([(⟨1, 10⟩ : Sample), ⟨1, 60⟩, ⟨0, 70⟩, ⟨0, 200⟩].take (2 + 1))).calls) :=
  ⟨by decide, poll_returns_latest_callback_result countingCallback 7 0 0 0 _ 2 (by decide)⟩

/-- C5 (acceptance from construction).  For a debouncer constructed at time `t0`
with initial state `S0` and any `S1 ≠ S0`, `poll(S1)` at time `t0 + DELAY + 1`
invokes the callback exactly once, with argument `S1`; every later sequence of
`poll(S1)` calls, at whatever times, invokes nothing and returns the cached
callback result each time. -/
theorem accept_after_construction {W : Type} (f : Int → W → Int × W) (c S0 S1 : Int)
    (t0 : Nat) (w : W) (ps : List Sample) (hS : S1 ≠ S0) (hps : ∀ p ∈ ps, p.value = S1) :
    ((Debounce.ctor f c S0 t0).poll S1 (t0 + Debounce.DELAY + 1) w).calls
        = [⟨S1, (f S1 w).1⟩] ∧
    ((Debounce.ctor f c S0 t0).poll S1 (t0 + Debounce.DELAY + 1) w).ret = (f S1 w).1 ∧
    ((Debounce.ctor f c S0 t0).poll S1 (t0 + Debounce.DELAY + 1) w).world = (f S1 w).2 ∧
    (((Debounce.ctor f c S0 t0).poll S1 (t0 + Debounce.DELAY + 1) w).self.run
        ((Debounce.ctor f c S0 t0).poll S1 (t0 + Debounce.DELAY + 1) w).world ps).calls = [] ∧
    (((Debounce.ctor f c S0 t0).poll S1 (t0 + Debounce.DELAY + 1) w).self.run
        ((Debounce.ctor f c S0 t0).poll S1 (t0 + Debounce.DELAY + 1) w).world ps).rets
        = List.replicate ps.length (f S1 w).1 := by
  have ht : Debounce.DELAY <
      usub (millis (t0 + Debounce.DELAY + 1)) (Debounce.ctor f c S0 t0).lastDebounceTime := by
    have h := usub_millis_add t0 (Debounce.DELAY + 1) (by decide)
    rw [← Nat.add_assoc] at h
    show Debounce.DELAY < usub (millis (t0 + Debounce.DELAY + 1)) (millis t0)
    rw [h]
    exact Nat.lt_succ_self _
  rw [(Debounce.ctor f c S0 t0).poll_of_accept S1 _ w hS ht]
  refine ⟨rfl, rfl, rfl, ?_, ?_⟩
  · rw [Debounce.run_same_value _ _ ps hps]
  · rw [Debounce.run_same_value _ _ ps hps]
    rfl

theorem accept_after_construction_witness :
    (1 : Int) ≠ 0 ∧ (∀ p ∈ [(⟨1, 152⟩ : Sample), ⟨1, 100000⟩], p.value = 1) ∧
    (((Debounce.ctor countingCallback 7 0 100).poll 1 (100 + Debounce.DELAY + 1) 0).calls
        = [⟨1, (countingCallback 1 0).1⟩] ∧
    ((Debounce.ctor countingCallback 7 0 100).poll 1 (100 + Debounce.DELAY + 1) 0).ret
        = (countingCallback 1 0).1 ∧
    ((Debounce.ctor countingCallback 7 0 100).poll 1 (100 + Debounce.DELAY + 1) 0).world
        = (countingCallback 1 0).2 ∧
    (((Debounce.ctor countingCallback 7 0 100).poll 1 (100 + Debounce.DELAY + 1) 0).self.run
        ((Debounce.ctor countingCallback 7 0 100).poll 1 (100 + Debounce.DELAY + 1) 0).world
        [⟨1, 152⟩, ⟨1, 100000⟩]).calls = [] ∧
    (((Debounce.ctor countingCallback 7 0 100).poll 1 (100 + Debounce.DELAY + 1) 0).self.run
        ((Debounce.ctor countingCallback 7 0 100).poll 1 (100 + Debounce.DELAY + 1) 0).world
        [⟨1, 152⟩, ⟨1, 100000⟩]).rets
        = List.replicate [(⟨1, 152⟩ : Sample), ⟨1, 100000⟩].length (countingCallback 1 0).1) :=
  ⟨by decide, by decide,
    accept_after_construction countingCallback 7 0 1 100 0 _ (by decide) (by decide)⟩

/-- C6 (anchor on accept).  After a transition to `v` accepted at time `ta`:
a differing value polled at `ta + 1` is rejected; if the polls `qs` made since
then were all rejected (however many there were), a differing value polled at a
time `t ≥ ta` with no wrap of the elapsed time is accepted exactly when
`t ≥ ta + DELAY + 1`; and in particular a differing value polled at `ta + 10`
and again at `ta + 60` is rejected the first time and accepted the second
(`ta = 100`: rejected at 110, accepted at 160). -/
theorem anchor_on_accept {W : Type} (d : Debounce W) (v : Int) (ta : Nat) (w : W)
    (x : Int) (qs : List Sample) (t : Nat)
    (hacc : (d.poll v ta w).calls ≠ [])
    (hx : x ≠ v)
    (hqs : ((d.poll v ta w).self.run (d.poll v ta w).world qs).calls = [])
    (h1 : ta ≤ t) (h2 : t - ta < ULONG_MOD) :
    ((d.poll v ta w).self.poll x (ta + 1) (d.poll v ta w).world).calls = [] ∧
    ((((d.poll v ta w).self.run (d.poll v ta w).world qs).self.poll x t
        ((d.poll v ta w).self.run (d.poll v ta w).world qs).world).calls ≠ [] ↔
      ta + Debounce.DELAY + 1 ≤ t) ∧
    ((d.poll v ta w).self.run (d.poll v ta w).world [⟨x, ta + 10⟩, ⟨x, ta + 60⟩]).calls
      = [⟨x, (d.callback x (d.poll v ta w).world).1⟩] ∧
    ((d.poll v ta w).self.run (d.poll v ta w).world [⟨x, ta + 10⟩, ⟨x, ta + 60⟩]).rets
      = [(d.poll v ta w).ret, (d.callback x (d.poll v ta w).world).1] := by
  obtain ⟨hst, hlast⟩ := d.poll_self_of_calls_ne_nil v ta w hacc
  have hx1 : x ≠ (d.poll v ta w).self.state := by rw [hst]; exact hx
  have h := (d.poll v ta w).self.anchored ta (d.poll v ta w).world hlast x hx1 qs t hqs h1 h2
  rw [(d.poll_callback v ta w).1, ← d.poll_ret v ta w] at h
  exact h

theorem anchor_on_accept_witness :
    ((Debounce.ctor countingCallback 7 0 0).poll 1 100 0).calls ≠ [] ∧ (0 : Int) ≠ 1 ∧
    (((Debounce.ctor countingCallback 7 0 0).poll 1 100 0).self.run
      ((Debounce.ctor countingCallback 7 0 0).poll 1 100 0).world [⟨0, 110⟩]).calls = [] ∧
    100 ≤ 160 ∧ 160 - 100 < ULONG_MOD ∧
    ((((Debounce.ctor countingCallback 7 0 0).poll 1 100 0).self.poll 0 (100 + 1)
        ((Debounce.ctor countingCallback 7 0 0).poll 1 100 0).world).calls = [] ∧
    (((((Debounce.ctor countingCallback 7 0 0).poll 1 100 0).self.run
          ((Debounce.ctor countingCallback 7 0 0).poll 1 100 0).world [⟨0, 110⟩]).self.poll 0 160
        ((((Debounce.ctor countingCallback 7 0 0).poll 1 100 0).self.run
          ((Debounce.ctor countingCallback 7 0 0).poll 1 100 0).world [⟨0, 110⟩]).world)).calls
          ≠ [] ↔
      100 + Debounce.DELAY + 1 ≤ 160) ∧
    (((Debounce.ctor countingCallback 7 0 0).poll 1 100 0).self.run
        ((Debounce.ctor countingCallback 7 0 0).poll 1 100 0).world
        [⟨0, 100 + 10⟩, ⟨0, 100 + 60⟩]).calls
      = [⟨0, ((Debounce.ctor countingCallback 7 0 0).callback 0
            ((Debounce.ctor countingCallback 7 0 0).poll 1 100 0).world).1⟩] ∧
    (((Debounce.ctor countingCallback 7 0 0).poll 1 100 0).self.run
        ((Debounce.ctor countingCallback 7 0 0).poll 1 100 0).world
        [⟨0, 100 + 10⟩, ⟨0, 100 + 60⟩]).rets
      = [((Debounce.ctor countingCallback 7 0 0).poll 1 100 0).ret,
          ((Debounce.ctor countingCallback 7 0 0).callback 0
            ((Debounce.ctor countingCallback 7 0 0).poll 1 100 0).world).1]) :=
  ⟨by decide, by decide, by decide, by decide, by decide,
    anchor_on_accept (Debounce.ctor countingCallback 7 0 0) 1 100 0 0 [⟨0, 110⟩] 160
      (by decide) (by decide) (by decide) (by decide) (by decide)⟩

/-- C7 (round trip).  For a debouncer constructed at `t0` with initial state
`S0` and any `S1 ≠ S0`, `poll(S1)` at `t1` followed by `poll(S0)` at `t2`, where
both `t1 - t0` and `t2 - t1` (as `poll` computes them) exceed `DELAY`, invokes
the callback exactly twice, first with `S1`, then with `S0`, and leaves `state`
equal to `S0`, the initial state. -/
theorem round_trip {W : Type} (f : Int → W → Int × W) (c S0 S1 : Int) (t0 t1 t2 : Nat) (w : W)
    (hS : S1 ≠ S0)
    (h1 : usub (millis t1) (millis t0) > Debounce.DELAY)
    (h2 : usub (millis t2) (millis t1) > Debounce.DELAY) :
    ((Debounce.ctor f c S0 t0).run w [⟨S1, t1⟩, ⟨S0, t2⟩]).calls
      = [⟨S1, (f S1 w).1⟩, ⟨S0, (f S0 (f S1 w).2).1⟩] ∧
    ((Debounce.ctor f c S0 t0).run w [⟨S1, t1⟩, ⟨S0, t2⟩]).rets
      = [(f S1 w).1, (f S0 (f S1 w).2).1] ∧
    ((Debounce.ctor f c S0 t0).run w [⟨S1, t1⟩, ⟨S0, t2⟩]).world = (f S0 (f S1 w).2).2 ∧
    ((Debounce.ctor f c S0 t0).run w [⟨S1, t1⟩, ⟨S0, t2⟩]).self.state = S0 ∧
    ((Debounce.ctor f c S0 t0).run w [⟨S1, t1⟩, ⟨S0, t2⟩]).self.initialState = S0 := by
  have a1 := (Debounce.ctor f c S0 t0).poll_of_accept S1 t1 w hS h1
  simp only [Debounce.run, a1]
  rw [Debounce.poll_of_accept _ S0 t2 _ (Ne.symm hS) h2]
  exact ⟨rfl, rfl, rfl, rfl, rfl⟩

theorem round_trip_witness :
    (1 : Int) ≠ 0 ∧ usub (millis 151) (millis 100) > Debounce.DELAY ∧
    usub (millis 202) (millis 151) > Debounce.DELAY ∧
    (((Debounce.ctor countingCallback 7 0 100).run 0 [⟨1, 151⟩, ⟨0, 202⟩]).calls
      = [⟨1, (countingCallback 1 0).1⟩, ⟨0, (countingCallback 0 (countingCallback 1 0).2).1⟩] ∧
    ((Debounce.ctor countingCallback 7 0 100).run 0 [⟨1, 151⟩, ⟨0, 202⟩]).rets
      = [(countingCallback 1 0).1, (countingCallback 0 (countingCallback 1 0).2).1] ∧
    ((Debounce.ctor countingCallback 7 0 100).run 0 [⟨1, 151⟩, ⟨0, 202⟩]).world
      = (countingCallback 0 (countingCallback 1 0).2).2 ∧
    ((Debounce.ctor countingCallback 7 0 100).run 0 [⟨1, 151⟩, ⟨0, 202⟩]).self.state = 0 ∧
    ((Debounce.ctor countingCallback 7 0 100).run 0 [⟨1, 151⟩, ⟨0, 202⟩]).self.initialState
      = 0) :=
  ⟨by decide, by decide, by decide,
    round_trip countingCallback 7 0 1 100 151 202 0 (by decide) (by decide) (by decide)⟩

/-- C8 (held-steady requirement), evaluated on the code.  A debouncer is
constructed at time 0 with rest state 0; the input is sampled as 0 at time 50
and as 1 at time 51.  The second poll invokes the callback with 1 although 1
was never sampled before, so it has not been held for `DELAY`. -/
theorem held_steady_violated :
    ((Debounce.ctor countingCallback 7 0 0).run 0 [⟨0, 50⟩]).calls = [] ∧
    (((Debounce.ctor countingCallback 7 0 0).run 0 [⟨0, 50⟩]).self.poll 1 51
      ((Debounce.ctor countingCallback 7 0 0).run 0 [⟨0, 50⟩]).world).calls = [⟨1, 10⟩] ∧
    ((Debounce.ctor countingCallback 7 0 0).run 0 [⟨0, 50⟩, ⟨1, 51⟩]).calls = [⟨1, 10⟩] ∧
    heldSteadyBefore [⟨0, 50⟩] ⟨1, 51⟩ = false := by
  decide

/-- C9 as stated fails: with `lastDebounceTime = 0`, `poll(1)` at time 50 is
rejected, yet `poll(1)` at time `50 + 50` invokes the callback and changes
`state`. -/
theorem late_first_sample_breaks_suppression :
    ¬ ∀ (d : Debounce Nat) (v : Int) (t0 D : Nat) (w : Nat),
      v ≠ d.state → (d.poll v t0 w).calls = [] → D ≤ Debounce.DELAY →
        ((d.poll v t0 w).self.poll v (t0 + D) (d.poll v t0 w).world).calls = [] ∧
        ((d.poll v t0 w).self.poll v (t0 + D) (d.poll v t0 w).world).self.state = d.state := by
  intro h
  have h1 := h (Debounce.ctor countingCallback 7 0 0) 1 50 50 0 (by decide) (by decide)
    (by decide)
  exact absurd h1.1 (by decide)

/-- C9, amended (suppression of two differing samples).  For every debouncer
state and every `v ≠ state`: if `poll(v)` is called at time `t0` and again at
`t0 + D`, and the time from `lastDebounceTime` to the second call, i.e. the
elapsed time at `t0` plus `D`, is at most `DELAY` (as when the first call is made
at `lastDebounceTime` itself and `D ≤ DELAY`), then neither call invokes the
callback and the object, `state` included, is unchanged after the second call. -/
theorem suppress_two_samples {W : Type} (d : Debounce W) (v : Int) (t0 D : Nat) (w : W)
    (_hv : v ≠ d.state) (h : d.elapsed t0 + D ≤ Debounce.DELAY) :
    (d.poll v t0 w).calls = [] ∧
    ((d.poll v t0 w).self.poll v (t0 + D) (d.poll v t0 w).world).calls = [] ∧
    ((d.poll v t0 w).self.poll v (t0 + D) (d.poll v t0 w).world).self.state = d.state ∧
    ((d.poll v t0 w).self.poll v (t0 + D) (d.poll v t0 w).world).self = d := by
  have e0 : ¬ (v ≠ d.state ∧ Debounce.DELAY < usub (millis t0) d.lastDebounceTime) := by
    intro hg
    have := hg.2
    unfold Debounce.elapsed at h
    omega
  have e1 : ¬ (v ≠ d.state ∧ Debounce.DELAY < usub (millis (t0 + D)) d.lastDebounceTime) := by
    intro hg
    have := hg.2
    unfold Debounce.elapsed Debounce.DELAY usub millis ULONG_MOD at *
    omega
  rw [d.poll_of_reject v t0 w e0]
  dsimp only
  rw [d.poll_of_reject v (t0 + D) w e1]
  exact ⟨rfl, rfl, rfl, rfl⟩

theorem suppress_two_samples_witness :
    (0 : Int) ≠ heldAt100.state ∧ heldAt100.elapsed 100 + 50 ≤ Debounce.DELAY ∧
    ((heldAt100.poll 0 100 3).calls = [] ∧
    ((heldAt100.poll 0 100 3).self.poll 0 (100 + 50) (heldAt100.poll 0 100 3).world).calls
      = [] ∧
    ((heldAt100.poll 0 100 3).self.poll 0 (100 + 50) (heldAt100.poll 0 100 3).world).self.state
      = heldAt100.state ∧
    ((heldAt100.poll 0 100 3).self.poll 0 (100 + 50) (heldAt100.poll 0 100 3).world).self
      = heldAt100) :=
  ⟨by decide, by decide, suppress_two_samples heldAt100 0 100 50 3 (by decide) (by decide)⟩

/-- C10 (update iff change).  In a single `poll`, `state` changes exactly when
the callback is invoked and its result is stored in the cached result, and
exactly when `lastDebounceTime` is set to the clock reading (which then differs
from its old value).  When `state` is unchanged, so are `lastDebounceTime` and the
cached result.  `state` changes only when the value differs from `state` and at
least `DELAY` has elapsed since `lastDebounceTime`. -/
theorem update_iff_state_changes {W : Type} (d : Debounce W) (v : Int) (now : Nat) (w : W) :
    ((d.poll v now w).self.state ≠ d.state ↔
      (d.poll v now w).calls = [⟨v, (d.callback v w).1⟩] ∧
        (d.poll v now w).self.prevCallbackResult = (d.callback v w).1) ∧
    ((d.poll v now w).self.state ≠ d.state ↔ (d.poll v now w).calls ≠ []) ∧
    ((d.poll v now w).self.state ≠ d.state ↔
      (d.poll v now w).self.lastDebounceTime = millis now ∧
        (d.poll v now w).self.lastDebounceTime ≠ d.lastDebounceTime) ∧
    ((d.poll v now w).self.state = d.state →
      (d.poll v now w).self.lastDebounceTime = d.lastDebounceTime ∧
        (d.poll v now w).self.prevCallbackResult = d.prevCallbackResult ∧
        (d.poll v now w).calls = []) ∧
    ((d.poll v now w).self.state ≠ d.state →
      v ≠ d.state ∧ Debounce.DELAY ≤ d.elapsed now) := by
  by_cases hg : v ≠ d.state ∧ Debounce.DELAY < usub (millis now) d.lastDebounceTime
  · have hne : millis now ≠ d.lastDebounceTime := by
      intro he
      have := hg.2
      rw [← he] at this
      unfold Debounce.DELAY usub millis ULONG_MOD at this
      omega
    rw [d.poll_of_accept v now w hg.1 hg.2]
    refine ⟨⟨fun _ => ⟨rfl, rfl⟩, fun _ => hg.1⟩, ⟨fun _ => List.cons_ne_nil _ _, fun _ => hg.1⟩,
      ⟨fun _ => ⟨rfl, hne⟩, fun _ => hg.1⟩, fun h => absurd h hg.1,
      fun _ => ⟨hg.1, Nat.le_of_lt hg.2⟩⟩
  · rw [d.poll_of_reject v now w hg]
    refine ⟨⟨fun h => absurd rfl h, fun h => absurd h.1 (List.cons_ne_nil _ _).symm⟩,
      ⟨fun h => absurd rfl h, fun h => absurd rfl h⟩,
      ⟨fun h => absurd rfl h, fun h => absurd rfl h.2⟩, fun _ => ⟨rfl, rfl, rfl⟩,
      fun h => absurd rfl h⟩

/-! ## Construction and direction independence -/

/-- C11 (construction).  Constructing with callback `f`, `initialCallbackValue = c`
and `initialState = s` when the clock shows `t` yields `state = s`, cached result
`c` and `lastDebounceTime` the clock reading at `t`; the constructor is not given
the callee-side state, so it invokes nothing, and no invocation is on record
before the first poll.  The omitted arguments default to `c = 0` and
`s = LOW = 0`.  Consequently a first poll of any value `v` at any time from `t`
to `t + DELAY` returns `c`, invokes nothing and changes nothing. -/
theorem construction {W : Type} (f : Int → W → Int × W) (c s : Int) (t : Nat) (w : W)
    (v : Int) (e : Nat) (he : e ≤ Debounce.DELAY) :
    (Debounce.ctor f c s t).state = s ∧
    (Debounce.ctor f c s t).prevCallbackResult = c ∧
    (Debounce.ctor f c s t).lastDebounceTime = millis t ∧
    (Debounce.ctor f c s t).initialState = s ∧
    (Debounce.ctor f c s t).callback = f ∧
    ((Debounce.ctor f c s t).run w []).calls = [] ∧
    ((Debounce.ctor f c s t).run w []).world = w ∧
    Debounce.ctorDefaultState f c t = Debounce.ctor f c 0 t ∧
    Debounce.ctorDefaults f t = Debounce.ctor f 0 0 t ∧
    LOW = 0 ∧
    ((Debounce.ctor f c s t).poll v (t + e) w).ret = c ∧
    ((Debounce.ctor f c s t).poll v (t + e) w).calls = [] ∧
    ((Debounce.ctor f c s t).poll v (t + e) w).world = w ∧
    ((Debounce.ctor f c s t).poll v (t + e) w).self = Debounce.ctor f c s t := by
  have hel : usub (millis (t + e)) (Debounce.ctor f c s t).lastDebounceTime = e :=
    usub_millis_add t e (Nat.lt_of_le_of_lt he (by decide))
  have hrej := (Debounce.ctor f c s t).poll_of_reject v (t + e) w
    (fun h => by rw [hel] at h; exact absurd he (Nat.not_le.mpr h.2))
  rw [hrej]
  exact ⟨rfl, rfl, rfl, rfl, rfl, rfl, rfl, rfl, rfl, rfl, rfl, rfl, rfl, rfl⟩

theorem construction_witness :
    50 ≤ Debounce.DELAY ∧
    ((Debounce.ctor countingCallback 7 0 100).state = 0 ∧
    (Debounce.ctor countingCallback 7 0 100).prevCallbackResult = 7 ∧
    (Debounce.ctor countingCallback 7 0 100).lastDebounceTime = millis 100 ∧
    (Debounce.ctor countingCallback 7 0 100).initialState = 0 ∧
    (Debounce.ctor countingCallback 7 0 100).callback = countingCallback ∧
    ((Debounce.ctor countingCallback 7 0 100).run 3 []).calls = [] ∧
    ((Debounce.ctor countingCallback 7 0 100).run 3 []).world = 3 ∧
    Debounce.ctorDefaultState countingCallback 7 100 = Debounce.ctor countingCallback 7 0 100 ∧
    Debounce.ctorDefaults countingCallback 100 = Debounce.ctor countingCallback 0 0 100 ∧
    LOW = 0 ∧
    ((Debounce.ctor countingCallback 7 0 100).poll 1 (100 + 50) 3).ret = 7 ∧
    ((Debounce.ctor countingCallback 7 0 100).poll 1 (100 + 50) 3).calls = [] ∧
    ((Debounce.ctor countingCallback 7 0 100).poll 1 (100 + 50) 3).world = 3 ∧
    ((Debounce.ctor countingCallback 7 0 100).poll 1 (100 + 50) 3).self
      = Debounce.ctor countingCallback 7 0 100) :=
  ⟨by decide, construction countingCallback 7 0 100 3 1 50 (by decide)⟩

/-- C12 (direction independence).  The "pressed" and "released" branches of
`poll` do the same thing: `poll` coincides with the single-path acceptance logic
of the spec, and two debouncers that differ only in `initialState` give, for
every value and clock, the same returned value, the same callback invocations
(argument, result and number), the same callee-side state and the same `state`,
`lastDebounceTime` and cached result; `initialState` itself is never modified. -/
theorem direction_independent {W : Type} (d : Debounce W) (s' : Int) (v : Int) (now : Nat)
    (w : W) :
    d.poll v now w = d.pollUniform v now w ∧
    (({ d with initialState := s' } : Debounce W).poll v now w).ret = (d.poll v now w).ret ∧
    (({ d with initialState := s' } : Debounce W).poll v now w).calls = (d.poll v now w).calls ∧
    (({ d with initialState := s' } : Debounce W).poll v now w).world = (d.poll v now w).world ∧
    (({ d with initialState := s' } : Debounce W).poll v now w).self.state
      = (d.poll v now w).self.state ∧
    (({ d with initialState := s' } : Debounce W).poll v now w).self.lastDebounceTime
      = (d.poll v now w).self.lastDebounceTime ∧
    (({ d with initialState := s' } : Debounce W).poll v now w).self.prevCallbackResult
      = (d.poll v now w).self.prevCallbackResult ∧
    (({ d with initialState := s' } : Debounce W).poll v now w).self.callback
      = (d.poll v now w).self.callback ∧
    (({ d with initialState := s' } : Debounce W).poll v now w).self.initialState = s' ∧
    (d.poll v now w).self.initialState = d.initialState := by
  by_cases hg : v ≠ d.state ∧ Debounce.DELAY < usub (millis now) d.lastDebounceTime
  · have h1 := d.poll_of_accept v now w hg.1 hg.2
    have h2 := ({ d with initialState := s' } : Debounce W).poll_of_accept v now w hg.1 hg.2
    have h3 : d.pollUniform v now w = d.poll v now w := by
      rw [h1]
      unfold Debounce.pollUniform
      rw [if_neg hg.1, if_pos hg.2]
    rw [h3, h2, h1]
    exact ⟨rfl, rfl, rfl, rfl, rfl, rfl, rfl, rfl, rfl, rfl⟩
  · have h1 := d.poll_of_reject v now w hg
    have h2 := ({ d with initialState := s' } : Debounce W).poll_of_reject v now w hg
    have h3 : d.pollUniform v now w = d.poll v now w := by
      rw [h1]
      unfold Debounce.pollUniform
      by_cases hv : v = d.state
      · rw [if_pos hv]
      · rw [if_neg hv, if_neg (fun ht => hg ⟨hv, ht⟩)]
    rw [h3, h2, h1]
    exact ⟨rfl, rfl, rfl, rfl, rfl, rfl, rfl, rfl, rfl, rfl⟩

/-! ## Clock wraparound -/

/-- C13 (clock wraparound).  The code's clock arithmetic is the 32-bit case of
`bits`-bit unsigned arithmetic, in which a difference is `(a - b) mod 2 ^ bits`
and therefore recovers any true elapsed time `x < 2 ^ bits`, whether or not the
counter wrapped in between.  So the elapsed time `poll` tests depends only on
`(now - lastDebounceTime) mod 2 ^ 32`, and for an object whose
`lastDebounceTime` was read at clock `ta`, a differing value polled after a true
elapsed time `e < 2 ^ 32` is accepted exactly when `e > DELAY`. -/
theorem wraparound_acceptance {W : Type} (d : Debounce W) (v : Int) (ta e : Nat) (w : W)
    (bits a b now : Nat)
    (hlast : d.lastDebounceTime = millis ta) (hv : v ≠ d.state) (he : e < 2 ^ 32) :
    usub a b = usubW 32 a b ∧ millis a = millisW 32 a ∧
    ((usubW bits a b : Nat) : Int) = ((a : Int) - (b : Int)) % ((2 : Int) ^ bits) ∧
    (∀ t x : Nat, x < 2 ^ bits → usubW bits (millisW bits (t + x)) (millisW bits t) = x) ∧
    ((d.elapsed now : Nat) : Int)
      = ((now : Int) - (d.lastDebounceTime : Int)) % ((2 : Int) ^ 32) ∧
    d.elapsed (ta + e) = e ∧
    ((d.poll v (ta + e) w).calls ≠ [] ↔ e > Debounce.DELAY) ∧
    ((d.poll v (ta + e) w).calls = [⟨v, (d.callback v w).1⟩] ↔ e > Debounce.DELAY) ∧
    ((d.poll v (ta + e) w).calls = [] ↔ e ≤ Debounce.DELAY) := by
  have hel : usub (millis (ta + e)) d.lastDebounceTime = e := by
    rw [hlast]; exact usub_millis_add ta e he
  refine ⟨rfl, rfl, usubW_int bits a b, fun t x hx => usubW_millisW_add bits t x hx,
    elapsed_int d now, hel, ?_, ?_, ?_⟩
  · rw [d.poll_calls_ne_nil_iff v (ta + e) w, hel]
    exact ⟨fun h => h.2, fun h => ⟨hv, h⟩⟩
  · constructor
    · intro h
      have h1 : (d.poll v (ta + e) w).calls ≠ [] := by rw [h]; exact List.cons_ne_nil _ _
      have h2 := (d.poll_calls_ne_nil_iff v (ta + e) w).mp h1
      rw [hel] at h2
      exact h2.2
    · intro h
      rw [d.poll_of_accept v (ta + e) w hv (by rw [hel]; exact h)]
  · constructor
    · intro h
      by_contra hc
      have h1 := d.poll_of_accept v (ta + e) w hv (by rw [hel]; exact Nat.not_le.mp hc)
      rw [h1] at h
      exact List.cons_ne_nil _ _ h
    · intro h
      rw [d.poll_of_reject v (ta + e) w (fun hg => by
        rw [hel] at hg; exact absurd h (Nat.not_le.mpr hg.2))]

theorem wraparound_acceptance_witness :
    (Debounce.ctor countingCallback 7 0 (2 ^ 32 - 10)).lastDebounceTime = millis (2 ^ 32 - 10) ∧
    (1 : Int) ≠ (Debounce.ctor countingCallback 7 0 (2 ^ 32 - 10)).state ∧
    51 < 2 ^ 32 ∧
    (usub 41 4294967286 = usubW 32 41 4294967286 ∧ millis 41 = millisW 32 41 ∧
    ((usubW 16 41 4294967286 : Nat) : Int)
      = (((41 : Nat) : Int) - ((4294967286 : Nat) : Int)) % ((2 : Int) ^ 16) ∧
    (∀ t x : Nat, x < 2 ^ 16 → usubW 16 (millisW 16 (t + x)) (millisW 16 t) = x) ∧
    (((Debounce.ctor countingCallback 7 0 (2 ^ 32 - 10)).elapsed (2 ^ 32 + 41) : Nat) : Int)
      = (((2 ^ 32 + 41 : Nat) : Int) -
          ((Debounce.ctor countingCallback 7 0 (2 ^ 32 - 10)).lastDebounceTime : Int))
        % ((2 : Int) ^ 32) ∧
    (Debounce.ctor countingCallback 7 0 (2 ^ 32 - 10)).elapsed (2 ^ 32 - 10 + 51) = 51 ∧
    (((Debounce.ctor countingCallback 7 0 (2 ^ 32 - 10)).poll 1 (2 ^ 32 - 10 + 51) 0).calls
        ≠ [] ↔ 51 > Debounce.DELAY) ∧
    (((Debounce.ctor countingCallback 7 0 (2 ^ 32 - 10)).poll 1 (2 ^ 32 - 10 + 51) 0).calls
        = [⟨1, ((Debounce.ctor countingCallback 7 0 (2 ^ 32 - 10)).callback 1 0).1⟩]
      ↔ 51 > Debounce.DELAY) ∧
    (((Debounce.ctor countingCallback 7 0 (2 ^ 32 - 10)).poll 1 (2 ^ 32 - 10 + 51) 0).calls
        = [] ↔ 51 ≤ Debounce.DELAY)) :=
  ⟨rfl, by decide, by decide,
    wraparound_acceptance (Debounce.ctor countingCallback 7 0 (2 ^ 32 - 10)) 1 (2 ^ 32 - 10) 51 0
      16 41 4294967286 (2 ^ 32 + 41) rfl (by decide) (by decide)⟩

/-! ## Invariants from construction -/

/-- C14 (no repeated argument).  For a debouncer built by the constructor with
initial state `s` and any sequence of timestamped polls: `state` equals the
argument of the most recent callback invocation, or `s` if there has been none;
`initialState` stays `s`; and the sequence of callback arguments, preceded by
`s`, has no two equal neighbours, i.e. the first argument differs from
`initialState` and no two consecutive invocations receive the same argument. -/
theorem no_repeated_argument {W : Type} (f : Int → W → Int × W) (c s : Int) (t0 : Nat)
    (w : W) (ps : List Sample) :
    ((Debounce.ctor f c s t0).run w ps).self.state
      = latestArg s ((Debounce.ctor f c s t0).run w ps).calls ∧
    ((Debounce.ctor f c s t0).run w ps).self.initialState = s ∧
    List.Chain (fun a b => a ≠ b) s
      (((Debounce.ctor f c s t0).run w ps).calls.map Call.arg) ∧
    (∀ k : Call, ((Debounce.ctor f c s t0).run w ps).calls.head? = some k → k.arg ≠ s) ∧
    List.Chain' (fun a b => a ≠ b)
      (((Debounce.ctor f c s t0).run w ps).calls.map Call.arg) := by
  have h := (Debounce.ctor f c s t0).run_state_chain w ps
  refine ⟨h.1, h.2.1, h.2.2, ?_, ?_⟩
  · intro k hk
    have hc := h.2.2
    cases hcalls : ((Debounce.ctor f c s t0).run w ps).calls with
    | nil => rw [hcalls] at hk; exact absurd hk (by simp)
    | cons k0 ks =>
      rw [hcalls] at hk hc
      simp only [List.head?_cons, Option.some.injEq] at hk
      rw [List.map_cons, List.chain_cons] at hc
      rw [← hk]
      exact Ne.symm hc.1
  · have hc := h.2.2
    cases hargs : (((Debounce.ctor f c s t0).run w ps).calls.map Call.arg) with
    | nil => exact List.chain'_nil
    | cons a0 as =>
      rw [hargs, List.chain_cons] at hc
      exact hc.2

/-- C15 (callback rate limit).  For a debouncer constructed at time `t0` and any
sequence of polls whose timestamps are non-decreasing from `t0` on and stay
within one period of the counter after `t0` (in particular when neither `t0` nor
any timestamp reaches `2 ^ 32`): every callback invocation happens later than
`t0 + DELAY`, any two invocations are more than `DELAY = 50` apart, and any
window `[a, a + L]` contains at most `L / (DELAY + 1) + 1` invocations. -/
theorem callback_rate_limit {W : Type} (f : Int → W → Int × W) (c s : Int) (t0 : Nat)
    (w : W) (ps : List Sample) (a L : Nat)
    (hsorted : List.Pairwise (fun x y => x ≤ y) (t0 :: ps.map Sample.now))
    (hnowrap : ∀ p ∈ ps, p.now < t0 + ULONG_MOD) :
    Debounce.DELAY = 50 ∧
    ((Debounce.ctor f c s t0).callTimes w ps).length
      = ((Debounce.ctor f c s t0).run w ps).calls.length ∧
    (∀ x ∈ (Debounce.ctor f c s t0).callTimes w ps, t0 + Debounce.DELAY < x) ∧
    List.Pairwise (fun x y => x + Debounce.DELAY < y)
      ((Debounce.ctor f c s t0).callTimes w ps) ∧
    (((Debounce.ctor f c s t0).callTimes w ps).filter
        (fun x => decide (a ≤ x ∧ x ≤ a + L))).length
      ≤ L / (Debounce.DELAY + 1) + 1 := by
  rw [List.pairwise_cons] at hsorted
  have h := (Debounce.ctor f c s t0).callTimes_spaced w ps t0 rfl
    (fun p hp => hsorted.1 p.now (List.mem_map_of_mem _ hp)) hsorted.2 hnowrap
  refine ⟨rfl, Debounce.callTimes_length _ w ps, h.1, h.2, ?_⟩
  apply spaced_window_count _ a L (List.Pairwise.filter _ h.2)
  intro x hx
  have := (List.mem_filter.mp hx).2
  exact of_decide_eq_true this

theorem callback_rate_limit_witness :
    List.Pairwise (fun x y => x ≤ y)
      (0 :: [(⟨1, 10⟩ : Sample), ⟨1, 60⟩, ⟨0, 70⟩, ⟨0, 200⟩].map Sample.now) ∧
    (∀ p ∈ [(⟨1, 10⟩ : Sample), ⟨1, 60⟩, ⟨0, 70⟩, ⟨0, 200⟩], p.now < 0 + ULONG_MOD) ∧
    (Debounce.DELAY = 50 ∧
    ((Debounce.ctor countingCallback 7 0 0).callTimes 0
        [⟨1, 10⟩, ⟨1, 60⟩, ⟨0, 70⟩, ⟨0, 200⟩]).length
      = ((Debounce.ctor countingCallback 7 0 0).run 0
        [⟨1, 10⟩, ⟨1, 60⟩, ⟨0, 70⟩, ⟨0, 200⟩]).calls.length ∧
    (∀ x ∈ (Debounce.ctor countingCallback 7 0 0).callTimes 0
        [⟨1, 10⟩, ⟨1, 60⟩, ⟨0, 70⟩, ⟨0, 200⟩], 0 + Debounce.DELAY < x) ∧
    List.Pairwise (fun x y => x + Debounce.DELAY < y)
      ((Debounce.ctor countingCallback 7 0 0).callTimes 0
        [⟨1, 10⟩, ⟨1, 60⟩, ⟨0, 70⟩, ⟨0, 200⟩]) ∧
    (((Debounce.ctor countingCallback 7 0 0).callTimes 0
        [⟨1, 10⟩, ⟨1, 60⟩, ⟨0, 70⟩, ⟨0, 200⟩]).filter
        (fun x => decide (60 ≤ x ∧ x ≤ 60 + 140))).length
      ≤ 140 / (Debounce.DELAY + 1) + 1) :=
  ⟨by decide, by decide,
    callback_rate_limit countingCallback 7 0 0 0 _ 60 140 (by decide) (by decide)⟩

end Buzz
